import Mathlib

/-!
Verification development for the uvm-python configuration database
(`src/uvm/base/uvm_config_db.py`, class `UVMConfigDb`).

The Python class is embedded shallowly: the process-wide static state
(`m_rsc`, `m_waiters`, the resource pool, the current phase and the tracing
flag) becomes an explicit `DbState` record, and the classmethods `set` /
`get` / `exists` become pure state-passing functions.  Collaborators of
`uvm_config_db.py` that live in this repository but outside the provided
sources (the resource pool `UVMResourcePool`, `UVMResource`, `UVMPool`, the
glob matcher in `sv.py`, `UVMResourceBase.default_precedence`, and the
`uvm_root` / phase machinery) are modelled from the specification; each such
definition carries a `Modelled from the spec:` comment.
-/

/-- Modelled from the spec: the Pattern Matcher (spec 4.1), standing in for
`sv.uvm_glob_to_re` + `sv.uvm_re_match` which are not under `src/`.
Glob wildcards: `*` matches any (possibly empty) run of characters, `?`
matches exactly one character; every other character matches only itself.
Matching is case-sensitive and anchored (whole-string). -/
def globStar (matchRest : List Char → Bool) : List Char → Bool
  | [] => matchRest []
  | c :: cs => matchRest (c :: cs) || globStar matchRest cs

/-- Modelled from the spec: the core anchored glob matcher on character
lists; `*` tries every split via `globStar`. -/
def globAux : List Char → List Char → Bool
  | [], s => s.isEmpty
  | p0 :: ps, s =>
      if p0 = '*' then globStar (globAux ps) s
      else
        match s with
        | [] => false
        | c :: cs => (if p0 = '?' then true else p0 == c) && globAux ps cs

/-- Modelled from the spec: anchored glob match on strings (spec 4.1). -/
def globMatch (pattern s : String) : Bool :=
  globAux pattern.data s.data

/-- Modelled from the spec: `sv.uvm_glob_to_re` (not under `src/`) compiles a
glob to a regex; we represent the compiled pattern by the glob string itself,
so that `uvm_re_match (uvm_glob_to_re g) s` performs exactly the anchored
glob match of `g` against `s`. -/
def uvm_glob_to_re (s : String) : String := s

/-- Modelled from the spec: `sv.uvm_re_match` (not under `src/`); like the
DPI function it returns `0` on a match and a nonzero value otherwise. -/
def uvm_re_match (re s : String) : Nat :=
  if globMatch re s then 0 else 1

/-- A component of the hierarchy, as the config DB sees it (spec section 6):
an identity (used as the `m_rsc` dictionary key), an absolute hierarchical
name (`get_full_name`) and a depth (`get_depth`).  Modelled from the spec:
`uvm_component` is not under `src/`. -/
structure Component where
  cid : Nat
  full_name : String
  depth : Nat
deriving Repr, DecidableEq

/-- Modelled from the spec: `cs.get_root()` — the root component `uvm_top`,
whose full name is the empty string and whose depth is 0. -/
def rootComp : Component := ⟨0, "", 0⟩

/-- Modelled from the spec: `UVMResourceBase.default_precedence` (not under
`src/`); the concrete value is irrelevant to the claims, only that every
build-phase write subtracts the writer's depth from it. -/
def default_precedence : Int := 1000

/-- One `UVMResource` as used by `UVMConfigDb.set`: created as
`UVMResource(field_name, inst_name)` (so `name` is the field pattern and
`scope` the instance pattern), carrying a precedence and the written value.
Modelled from the spec: `UVMResource` itself is not under `src/`. -/
structure Resource (V : Type) where
  name : String
  scope : String
  precedence : Int
  val : V
deriving Repr, DecidableEq

/-- One `m_uvm_waiter` (uvm_config_db.py lines 46-51): the registered
instance pattern, field name, and the state of its `trigger` event. -/
structure Waiter where
  inst_name : String
  field_name : String
  triggered : Bool
deriving Repr, DecidableEq

/-- Out-parameter of `get`: the Python call passes an arbitrary object and
`get` appends into it when it is list-like (`hasattr(value, 'append')`);
anything else makes a hit raise. -/
inductive OutArg (V : Type) where
  | lst (l : List V)
  | nonAppendable
deriving Repr, DecidableEq

/-- The process-wide state of the configuration database.
`pool` is the resource pool's entries front-to-back (front = read first),
each carrying a numeric identity standing for Python object identity;
`m_rsc` maps a context's `cid` to its per-context `UVMPool` (lookup string
to resource identity); `m_waiters` is the waiter registry; `phase` is the
name of `top.m_current_phase` (if any); `tracing`/`trace` model
`UVMConfigDbOptions` and the emitted trace records. -/
structure DbState (V : Type) where
  pool : List (Nat × Resource V)
  nextRid : Nat
  m_rsc : List (Nat × List (String × Nat))
  m_waiters : List (String × List Waiter)
  phase : Option String
  tracing : Bool
  trace : List String
deriving Repr, DecidableEq

/-- The empty database, with a fixed current phase and tracing flag. -/
def initState (V : Type) (phase : Option String) (tracing : Bool) : DbState V :=
  ⟨[], 0, [], [], phase, tracing, []⟩

/-- `cntxt = None` resolves to the root (uvm_config_db.py lines 113-114,
190-191). -/
def resolveCtx (cntxt : Option Component) : Component :=
  cntxt.getD rootComp

/-- Normalization of the instance name against the context
(uvm_config_db.py lines 115-118 and 192-195). -/
def resolveInst (c : Component) (inst_name : String) : String :=
  if inst_name = "" then c.full_name
  else if c.full_name ≠ "" then c.full_name ++ "." ++ inst_name
  else inst_name

/-- The internal lookup key composed by `set`
(uvm_config_db.py line 207). -/
def lookupName (inst_name field_name : String) : String :=
  inst_name ++ "__M_UVM__" ++ field_name

/-- Association lookup used for the per-context `UVMPool`
(pool.exists / pool.get). -/
def findKey (k : String) (b : List (String × Nat)) : Option Nat :=
  match b.find? (fun kv => kv.1 == k) with
  | some kv => some kv.2
  | none => none

/-- The per-context pool for a context identity (`m_rsc[cntxt]`), empty when
the context has no pool yet. -/
def getBucket (cid : Nat) (m : List (Nat × List (String × Nat))) :
    List (String × Nat) :=
  match m.find? (fun b => b.1 == cid) with
  | some b => b.2
  | none => []

/-- Store a context's pool back into `m_rsc` (insert or replace). -/
def setBucket (cid : Nat) (b : List (String × Nat)) :
    List (Nat × List (String × Nat)) → List (Nat × List (String × Nat))
  | [] => [(cid, b)]
  | e :: es => if e.1 = cid then (cid, b) :: es else e :: setBucket cid b es

/-- Remove the (first) pool entry with the given identity; used to model
`set_priority_name(r, PRI_HIGH)` moving an existing resource to the front. -/
def removeRid {V : Type} (rid : Nat) :
    List (Nat × Resource V) → List (Nat × Resource V)
  | [] => []
  | e :: es => if e.1 = rid then es else e :: removeRid rid es

/-- The precedence computed by `set` (uvm_config_db.py lines 217-220):
`default_precedence - cntxt.get_depth()` during the build phase, the plain
default otherwise. -/
def calcPrec (phase : Option String) (c : Component) : Int :=
  if phase = some "build" then default_precedence - c.depth
  else default_precedence

/-- Whether a stored resource's patterns match a concrete
`(inst_name, field_name)` lookup. -/
def visMatch {V : Type} (inst_name field_name : String)
    (e : Nat × Resource V) : Bool :=
  globMatch e.2.scope inst_name && globMatch e.2.name field_name

/-- Modelled from the spec: `UVMResourcePool.lookup_regex_names` (spec 4.2,
not under `src/`): all stored entries whose instance pattern matches the
concrete instance path and whose field pattern matches the concrete field
name, in pool order (front-to-back). -/
def lookup_regex_names {V : Type} (pool : List (Nat × Resource V))
    (inst_name field_name : String) : List (Nat × Resource V) :=
  pool.filter (visMatch inst_name field_name)

/-- Modelled from the spec: `UVMResource.get_highest_precedence` (spec 4.2,
not under `src/`): the front-most entry whose precedence is maximal (ties
broken in favour of pool position).  The type filter is omitted: the
embedding models one type-parameterized database instance. -/
def get_highest_precedence {V : Type} :
    List (Nat × Resource V) → Option (Nat × Resource V)
  | [] => none
  | x :: xs =>
    match get_highest_precedence xs with
    | none => some x
    | some y => if y.2.precedence > x.2.precedence then some y else some x

/-- `w.trigger.set()` applied to the waiters a write wakes
(uvm_config_db.py line 236-237): the trigger event of a waiter whose
registered `inst_name` matches the glob-to-regex conversion of the written
instance path becomes set; other waiters are untouched. -/
def wakeUpd (inst_name : String) (w : Waiter) : Waiter :=
  if uvm_re_match (uvm_glob_to_re inst_name) w.inst_name = 0 then
    { w with triggered := true }
  else w

/-- The waiter-waking scan of `set` (uvm_config_db.py lines 232-237): every
waiter registered under `field_name` whose `inst_name` matches the
glob-to-regex conversion of the written instance path gets its trigger
event set; nothing is removed. -/
def wakeWaiters (inst_name field_name : String)
    (m : List (String × List Waiter)) : List (String × List Waiter) :=
  m.map (fun b =>
    if b.1 = field_name then (b.1, b.2.map (wakeUpd inst_name)) else b)

/-- Trace emission (`UVMResourceDb.m_show_msg`, gated on
`UVMConfigDbOptions.is_tracing()`): recorded as an opaque line, affecting
only the `trace` field. -/
def addTrace {V : Type} (tag inst_name field_name : String)
    (st : DbState V) : DbState V :=
  if st.tracing then
    { st with trace := (tag ++ " " ++ inst_name ++ " " ++ field_name) :: st.trace }
  else st

/-- The pool and `m_rsc` update of `UVMConfigDb.set` (uvm_config_db.py
lines 197-229): the composed key is looked up in the per-context pool; a
fresh key creates a resource registered there and placed at the front of
the resource pool (`set_override`), an existing key updates the resource in
place and moves it to the front (`set_priority_name` with `PRI_HIGH`); the
precedence and value are (re)written in both cases. -/
def setPoolStep {V : Type} (st : DbState V) (cntxt : Option Component)
    (inst_nameArg field_name : String) (value : V) : DbState V :=
  let c := resolveCtx cntxt
  let inst_name := resolveInst c inst_nameArg
  let bucket := getBucket c.cid st.m_rsc
  let lookup := lookupName inst_name field_name
  let prec := calcPrec st.phase c
  match findKey lookup bucket with
  | none =>
      { st with
        pool := (st.nextRid, ⟨field_name, inst_name, prec, value⟩) :: st.pool,
        nextRid := st.nextRid + 1,
        m_rsc := setBucket c.cid (bucket ++ [(lookup, st.nextRid)]) st.m_rsc }
  | some rid =>
      match st.pool.find? (fun (e : Nat × Resource V) => e.1 == rid) with
      | some e =>
          { st with
            pool := (rid, { e.2 with precedence := prec, val := value }) ::
                      removeRid rid st.pool }
      | none => st

/-- `UVMConfigDb.set` (uvm_config_db.py lines 171-243).  Resolves the
context and instance name and performs the pool update (`setPoolStep`);
then the waiter registry bucket for `field_name` is scanned and matching
waiters triggered, and a trace record is emitted when tracing is on. -/
def UVMConfigDb.set {V : Type} (st : DbState V) (cntxt : Option Component)
    (inst_nameArg field_name : String) (value : V) : DbState V :=
  let inst_name := resolveInst (resolveCtx cntxt) inst_nameArg
  let st1 := setPoolStep st cntxt inst_nameArg field_name value
  let st2 := { st1 with m_waiters := wakeWaiters inst_name field_name st1.m_waiters }
  addTrace "CFGDB/SET" inst_name field_name st2

/-- `UVMConfigDb.get` (uvm_config_db.py lines 103-134).  Resolves the
context and instance name, queries the pool for all matching entries, picks
the highest-precedence one, emits a trace record when tracing is on; a miss
returns `false` leaving the out-argument untouched; a hit appends the read
value when the out-argument is list-like and raises otherwise (`none` in
the first component models the raised exception). -/
def UVMConfigDb.get {V : Type} (st : DbState V) (cntxt : Option Component)
    (inst_nameArg field_name : String) (value : OutArg V) :
    Option (Bool × OutArg V) × DbState V :=
  let c := resolveCtx cntxt
  let inst_name := resolveInst c inst_nameArg
  let st1 := addTrace "CFGDB/GET" inst_name field_name st
  match get_highest_precedence (lookup_regex_names st.pool inst_name field_name), value with
  | none, _ => (some (false, value), st1)
  | some e, OutArg.lst l => (some (true, OutArg.lst (l ++ [e.2.val])), st1)
  | some _, OutArg.nonAppendable => (none, st1)

/-- `UVMConfigDb.exists` (uvm_config_db.py lines 257-268).  Modelled from
the spec for the delegate: `UVMResourceDb.get_by_name` is not under `src/`;
per spec 4.3 it reports whether any stored entry matches the resolved
lookup, reading nothing and changing nothing. -/
def UVMConfigDb.existsQ {V : Type} (st : DbState V) (cntxt : Option Component)
    (inst_nameArg field_name : String) : Bool :=
  let c := resolveCtx cntxt
  let inst_name := resolveInst c inst_nameArg
  !(lookup_regex_names st.pool inst_name field_name).isEmpty

/-- The operations the Python module actually implements, plus the phase
transitions performed by the (external) phase scheduler. -/
inductive DbOp (V : Type) where
  | opSet (cntxt : Option Component) (inst_name field_name : String) (value : V)
  | opGet (cntxt : Option Component) (inst_name field_name : String)
  | opExists (cntxt : Option Component) (inst_name field_name : String)
  | opPhase (phase : Option String)

def applyOp {V : Type} (st : DbState V) : DbOp V → DbState V
  | DbOp.opSet c i f v => UVMConfigDb.set st c i f v
  | DbOp.opGet c i f => (UVMConfigDb.get st c i f (OutArg.lst [])).2
  | DbOp.opExists _ _ _ => st
  | DbOp.opPhase p => { st with phase := p }

def applyOps {V : Type} (ops : List (DbOp V)) (st : DbState V) : DbState V :=
  ops.foldl applyOp st

/-- The bucket registered under a field name in a waiter-registry map. -/
def bucketOf (m : List (String × List Waiter)) (field_name : String) :
    List Waiter :=
  match m.find? (fun b => b.1 == field_name) with
  | some b => b.2
  | none => []

/-- The waiter-registry bucket registered under a field name. -/
def getWaiters {V : Type} (st : DbState V) (field_name : String) : List Waiter :=
  bucketOf st.m_waiters field_name

/-- Projection of the state onto everything except the tracing flag and the
emitted trace records; two runs agreeing here agree on all returned data. -/
def obs {V : Type} (st : DbState V) :
    List (Nat × Resource V) × Nat × List (Nat × List (String × Nat)) ×
      List (String × List Waiter) × Option String :=
  (st.pool, st.nextRid, st.m_rsc, st.m_waiters, st.phase)

/-- Every resource identity referenced from a per-context pool is present in
the resource pool; in Python this is automatic (the per-context pool holds
the object itself), and it holds in every state `set` produces. -/
def wfRids {V : Type} (st : DbState V) : Bool :=
  st.m_rsc.all (fun b => b.2.all (fun kv => st.pool.any (fun e => e.1 == kv.2)))

/-- No stored precedence exceeds the default; an invariant of all reachable
states, since `set` assigns either the default or the default minus a
depth. -/
def precBounded {V : Type} (st : DbState V) : Bool :=
  st.pool.all (fun e => decide (e.2.precedence ≤ default_precedence))

/-- Every per-context pool has pairwise distinct lookup keys; an invariant
of all reachable states (in Python the pool is a dict). -/
def bucketsNodup {V : Type} (st : DbState V) : Bool :=
  st.m_rsc.all (fun b => decide (b.2.map Prod.fst).Nodup)

/-- The existing entry under the key `set` is about to write (if any) was
itself created for the same `(instance, field)` pair — i.e. that key was
never reached through separator-aliasing of a different pair. -/
def keyFits {V : Type} (st : DbState V) (cntxt : Option Component)
    (inst_nameArg field_name : String) : Bool :=
  let c := resolveCtx cntxt
  let inst_name := resolveInst c inst_nameArg
  match findKey (lookupName inst_name field_name) (getBucket c.cid st.m_rsc) with
  | none => true
  | some rid =>
    match st.pool.find? (fun (e : Nat × Resource V) => e.1 == rid) with
    | none => false
    | some e => (e.2.scope == inst_name) && (e.2.name == field_name)

/-- An operation that cannot disturb a pending lookup for
`(inst_name, field_name)`: any non-write, or a write whose touched pool
entry (the entry it creates, or the existing entry under its composed key)
does not match the lookup. -/
def benignFor {V : Type} (inst_name field_name : String) (st : DbState V) :
    DbOp V → Bool
  | DbOp.opSet c2 i2 f2 _ =>
      let c := resolveCtx c2
      let i2n := resolveInst c i2
      (!(globMatch i2n inst_name && globMatch f2 field_name)) &&
      (match findKey (lookupName i2n f2) (getBucket c.cid st.m_rsc) with
       | some rid =>
         match st.pool.find? (fun (e : Nat × Resource V) => e.1 == rid) with
         | some e => !visMatch inst_name field_name e
         | none => true
       | none => true)
  | _ => true

/-- A sequence of operations, each benign for the lookup in the state where
it runs. -/
def BenignSeq {V : Type} (inst_name field_name : String) :
    DbState V → List (DbOp V) → Prop
  | _, [] => True
  | st, op :: ops =>
      benignFor inst_name field_name st op = true ∧
      BenignSeq inst_name field_name (applyOp st op) ops

/-- The front-most pool entry matching the lookup carries the default
precedence and the value `v` — the configuration a completed runtime write
leaves behind. -/
def headVal {V : Type} (inst_name field_name : String) (v : V)
    (st : DbState V) : Prop :=
  ∃ rid r rest,
    lookup_regex_names st.pool inst_name field_name = (rid, r) :: rest ∧
      r.precedence = default_precedence ∧ r.val = v

/-- Invariant carried across benign operations between a runtime write and
the `get` that reads it back. -/
def StableInv {V : Type} (inst_name field_name : String) (v : V)
    (st : DbState V) : Prop :=
  precBounded st = true ∧ headVal inst_name field_name v st

/-- The separator token `__M_UVM__` of the composed lookup key, as a
character list. -/
def sepL : List Char := ['_', '_', 'M', '_', 'U', 'V', 'M', '_', '_']

/-- The self-overlapping core `M_UVM` of the separator token: a name free
of this fragment can never realign a composed key. -/
def markL : List Char := ['M', '_', 'U', 'V', 'M']

/-- `leadEq a b`: the list `b` starts with the list `a`. -/
def leadEq : List Char → List Char → Bool
  | [], _ => true
  | _ :: _, [] => false
  | a :: as, b :: bs => (a == b) && leadEq as bs

/-- `hasSeg pat l`: the list `pat` occurs contiguously inside `l`. -/
def hasSeg (pat : List Char) : List Char → Bool
  | [] => leadEq pat []
  | c :: cs => leadEq pat (c :: cs) || hasSeg pat cs

/-! ### Helper lemmas: glob matching -/

theorem globStar_of_matchRest {f : List Char → Bool} {s : List Char}
    (h : f s = true) : globStar f s = true := by
  cases s with
  | nil => simpa [globStar] using h
  | cons c cs => simp [globStar, h]

theorem globAux_self (l : List Char) : globAux l l = true := by
  induction l with
  | nil => rfl
  | cons p ps ih =>
    by_cases hstar : p = '*'
    · subst hstar
      have h2 : globStar (globAux ps) ps = true := globStar_of_matchRest ih
      simp [globAux, globStar, h2]
    · simp [globAux, hstar, ih]

theorem globMatch_self (s : String) : globMatch s s = true :=
  globAux_self s.data

/-! ### Helper lemmas: highest precedence selection -/

theorem ghp_mem {V : Type} {l : List (Nat × Resource V)} {y : Nat × Resource V}
    (h : get_highest_precedence l = some y) : y ∈ l := by
  induction l with
  | nil => simp [get_highest_precedence] at h
  | cons x xs ih =>
    cases hx : get_highest_precedence xs with
    | none =>
      simp only [get_highest_precedence, hx] at h
      obtain rfl := Option.some.inj h
      exact List.mem_cons_self _ _
    | some z =>
      simp only [get_highest_precedence, hx] at h
      by_cases hp : z.2.precedence > x.2.precedence
      · rw [if_pos hp] at h
        obtain rfl := Option.some.inj h
        exact List.mem_cons_of_mem _ (ih hx)
      · rw [if_neg hp] at h
        obtain rfl := Option.some.inj h
        exact List.mem_cons_self _ _

theorem ghp_head {V : Type} (x : Nat × Resource V) (xs : List (Nat × Resource V))
    (h : ∀ y ∈ xs, y.2.precedence ≤ x.2.precedence) :
    get_highest_precedence (x :: xs) = some x := by
  cases hx : get_highest_precedence xs with
  | none => simp [get_highest_precedence, hx]
  | some z =>
    have hz := h z (ghp_mem hx)
    simp only [get_highest_precedence, hx]
    rw [if_neg (show ¬z.2.precedence > x.2.precedence by omega)]

/-! ### Helper lemmas: removal from the pool -/

theorem removeRid_sublist {V : Type} (rid : Nat) (l : List (Nat × Resource V)) :
    (removeRid rid l).Sublist l := by
  induction l with
  | nil => simp [removeRid]
  | cons e es ih =>
    simp only [removeRid]
    by_cases h : e.1 = rid
    · rw [if_pos h]
      exact List.sublist_cons_self e es
    · rw [if_neg h]
      exact List.Sublist.cons₂ e ih

theorem mem_of_removeRid {V : Type} {rid : Nat} {l : List (Nat × Resource V)}
    {x : Nat × Resource V} (h : x ∈ removeRid rid l) : x ∈ l :=
  (removeRid_sublist rid l).subset h

theorem filter_removeRid {V : Type} (p : Nat × Resource V → Bool) (rid : Nat)
    (l : List (Nat × Resource V)) (e : Nat × Resource V)
    (hf : l.find? (fun x => x.1 == rid) = some e) (hp : p e = false) :
    (removeRid rid l).filter p = l.filter p := by
  induction l with
  | nil => simp at hf
  | cons a as ih =>
    by_cases ha : a.1 = rid
    · have hpa : (fun (x : Nat × Resource V) => x.1 == rid) a = true := by
        simp [ha]
      rw [@List.find?_cons_of_pos _ (fun (x : Nat × Resource V) => x.1 == rid) a as hpa] at hf
      obtain rfl := Option.some.inj hf
      simp only [removeRid, if_pos ha]
      rw [List.filter_cons_of_neg (by simp [hp])]
    · have hpa : ¬((fun (x : Nat × Resource V) => x.1 == rid) a = true) := by
        simp [ha]
      rw [@List.find?_cons_of_neg _ (fun (x : Nat × Resource V) => x.1 == rid) a as hpa] at hf
      simp only [removeRid, if_neg ha]
      by_cases hpb : p a = true
      · rw [List.filter_cons_of_pos hpb, List.filter_cons_of_pos hpb, ih hf]
      · rw [List.filter_cons_of_neg hpb, List.filter_cons_of_neg hpb, ih hf]

theorem removeRid_length {V : Type} {rid : Nat} {l : List (Nat × Resource V)}
    (h : ∃ x ∈ l, x.1 = rid) : (removeRid rid l).length + 1 = l.length := by
  induction l with
  | nil => simp at h
  | cons a as ih =>
    by_cases ha : a.1 = rid
    · simp [removeRid, if_pos ha]
    · obtain ⟨x, hx, hx1⟩ := h
      rcases List.mem_cons.mp hx with rfl | hmem
      · exact absurd hx1 ha
      · simp only [removeRid, if_neg ha, List.length_cons]
        rw [← ih ⟨x, hmem, hx1⟩]

/-! ### Helper lemmas: state projections -/

theorem addTrace_pool {V : Type} (tag i f : String) (st : DbState V) :
    (addTrace tag i f st).pool = st.pool := by
  unfold addTrace; split <;> rfl

theorem addTrace_nextRid {V : Type} (tag i f : String) (st : DbState V) :
    (addTrace tag i f st).nextRid = st.nextRid := by
  unfold addTrace; split <;> rfl

theorem addTrace_m_rsc {V : Type} (tag i f : String) (st : DbState V) :
    (addTrace tag i f st).m_rsc = st.m_rsc := by
  unfold addTrace; split <;> rfl

theorem addTrace_m_waiters {V : Type} (tag i f : String) (st : DbState V) :
    (addTrace tag i f st).m_waiters = st.m_waiters := by
  unfold addTrace; split <;> rfl

theorem addTrace_phase {V : Type} (tag i f : String) (st : DbState V) :
    (addTrace tag i f st).phase = st.phase := by
  unfold addTrace; split <;> rfl

theorem setPoolStep_m_waiters {V : Type} (st : DbState V) (c : Option Component)
    (i f : String) (v : V) :
    (setPoolStep st c i f v).m_waiters = st.m_waiters := by
  simp only [setPoolStep]
  split
  · rfl
  · split <;> rfl

theorem setPoolStep_phase {V : Type} (st : DbState V) (c : Option Component)
    (i f : String) (v : V) :
    (setPoolStep st c i f v).phase = st.phase := by
  simp only [setPoolStep]
  split
  · rfl
  · split <;> rfl

theorem setPoolStep_tracing {V : Type} (st : DbState V) (c : Option Component)
    (i f : String) (v : V) :
    (setPoolStep st c i f v).tracing = st.tracing := by
  simp only [setPoolStep]
  split
  · rfl
  · split <;> rfl

theorem set_m_waiters {V : Type} (st : DbState V) (c : Option Component)
    (i f : String) (v : V) :
    (UVMConfigDb.set st c i f v).m_waiters =
      wakeWaiters (resolveInst (resolveCtx c) i) f st.m_waiters := by
  unfold UVMConfigDb.set
  rw [addTrace_m_waiters]
  show wakeWaiters _ _ (setPoolStep st c i f v).m_waiters = _
  rw [setPoolStep_m_waiters]

theorem set_pool {V : Type} (st : DbState V) (c : Option Component)
    (i f : String) (v : V) :
    (UVMConfigDb.set st c i f v).pool = (setPoolStep st c i f v).pool := by
  unfold UVMConfigDb.set
  rw [addTrace_pool]

theorem set_m_rsc {V : Type} (st : DbState V) (c : Option Component)
    (i f : String) (v : V) :
    (UVMConfigDb.set st c i f v).m_rsc = (setPoolStep st c i f v).m_rsc := by
  unfold UVMConfigDb.set
  rw [addTrace_m_rsc]

theorem set_nextRid {V : Type} (st : DbState V) (c : Option Component)
    (i f : String) (v : V) :
    (UVMConfigDb.set st c i f v).nextRid = (setPoolStep st c i f v).nextRid := by
  unfold UVMConfigDb.set
  rw [addTrace_nextRid]

theorem set_phase {V : Type} (st : DbState V) (c : Option Component)
    (i f : String) (v : V) :
    (UVMConfigDb.set st c i f v).phase = st.phase := by
  unfold UVMConfigDb.set
  rw [addTrace_phase]
  show (setPoolStep st c i f v).phase = st.phase
  exact setPoolStep_phase st c i f v

theorem get_state {V : Type} (st : DbState V) (c : Option Component)
    (i f : String) (out : OutArg V) :
    (UVMConfigDb.get st c i f out).2 =
      addTrace "CFGDB/GET" (resolveInst (resolveCtx c) i) f st := by
  simp only [UVMConfigDb.get]
  split <;> rfl

/-! ### Helper lemmas: waiter registry -/

theorem bucketOf_wakeWaiters (inst f g : String)
    (m : List (String × List Waiter)) :
    bucketOf (wakeWaiters inst f m) g =
      if g = f then (bucketOf m f).map (wakeUpd inst) else bucketOf m g := by
  simp only [wakeWaiters]
  induction m with
  | nil =>
    simp only [List.map_nil, bucketOf, List.find?_nil]
    split <;> rfl
  | cons b bs ih =>
    simp only [List.map_cons]
    by_cases hgf : g = f
    · subst hgf
      rw [if_pos rfl] at ih ⊢
      by_cases hbg : b.1 = g
      · have h1 : ((if b.1 = g then (b.1, b.2.map (wakeUpd inst)) else b).1 == g) = true := by
          simp [hbg]
        simp [bucketOf, List.find?_cons, h1, hbg]
      · have h1 : ((if b.1 = g then (b.1, b.2.map (wakeUpd inst)) else b).1 == g) = false := by
          simp [hbg]
        have h2 : (b.1 == g) = false := by simp [hbg]
        simp only [bucketOf, List.find?_cons, h1, h2] at ih ⊢
        exact ih
    · rw [if_neg hgf] at ih ⊢
      by_cases hbg : b.1 = g
      · have hbf : ¬ b.1 = f := fun h => hgf (by rw [← hbg, h])
        rw [if_neg hbf]
        have h1 : (b.1 == g) = true := by simp [hbg]
        simp only [bucketOf, List.find?_cons, h1]
      · have h2 : (b.1 == g) = false := by simp [hbg]
        by_cases hbf : b.1 = f
        · rw [if_pos hbf]
          simp only [bucketOf, List.find?_cons, h2] at ih ⊢
          exact ih
        · rw [if_neg hbf]
          simp only [bucketOf, List.find?_cons, h2] at ih ⊢
          exact ih

theorem addTrace_obs {V : Type} (tag i f : String) (st : DbState V) :
    obs (addTrace tag i f st) = obs st := by
  unfold obs
  rw [addTrace_pool, addTrace_nextRid, addTrace_m_rsc, addTrace_m_waiters,
    addTrace_phase]

theorem setPoolStep_obs_tracing {V : Type} (st : DbState V) (b : Bool)
    (c : Option Component) (i f : String) (v : V) :
    obs (setPoolStep { st with tracing := b } c i f v) =
      obs (setPoolStep st c i f v) := by
  simp only [setPoolStep]
  split
  · rfl
  · split <;> rfl

theorem applyOps_m_waiters_nil {V : Type} (ops : List (DbOp V)) :
    ∀ st : DbState V, st.m_waiters = [] → (applyOps ops st).m_waiters = [] := by
  induction ops with
  | nil => intro st h; exact h
  | cons op rest ih =>
    intro st h
    show (applyOps rest (applyOp st op)).m_waiters = []
    apply ih
    cases op with
    | opSet c i f v =>
      show (UVMConfigDb.set st c i f v).m_waiters = []
      rw [set_m_waiters, h]
      rfl
    | opGet c i f =>
      show ((UVMConfigDb.get st c i f (OutArg.lst [])).2).m_waiters = []
      rw [get_state, addTrace_m_waiters, h]
    | opExists c i f => exact h
    | opPhase p => exact h

/-! ### Claim theorems -/

/-- C3 (code finding): the Python class does not implement `wait_modified`
(uvm_config_db.py lines 270-313 hold only a commented-out SystemVerilog
body), so no implemented operation ever registers a waiter: starting from
the empty database, after any sequence of `set` / `get` / `exists` calls
and phase transitions the waiter registry `m_waiters` is still empty.
Hence no caller can ever block, be woken exactly once, or be removed by
identity, and `set`'s waiter-waking scan is dead code. -/
theorem c3_registry_stays_empty (V : Type) (phase : Option String)
    (tracing : Bool) (ops : List (DbOp V)) :
    (applyOps ops (initState V phase tracing)).m_waiters = [] :=
  applyOps_m_waiters_nil ops (initState V phase tracing) rfl

/-- C6: every call to `set` signals the trigger of exactly those waiters in
the `field_name` bucket whose registered `inst_name` matches the
glob-to-regex conversion of the written absolute instance path (the
`wakeUpd` update, i.e. `uvm_re_match (uvm_glob_to_re written_path)
waiter.inst_name == 0`), leaves every other bucket untouched, and removes
no waiter (the bucket is mapped elementwise, preserving length, order and
every other field). -/
theorem c6_set_wakes_matching_waiters {V : Type} (st : DbState V)
    (cntxt : Option Component) (i f : String) (v : V) (g : String) :
    getWaiters (UVMConfigDb.set st cntxt i f v) g =
      if g = f then
        (getWaiters st f).map (wakeUpd (resolveInst (resolveCtx cntxt) i))
      else getWaiters st g := by
  unfold getWaiters
  rw [set_m_waiters]
  exact bucketOf_wakeWaiters _ _ _ _

/-- C7: a `get` for which no stored entry matches the resolved lookup
returns `false`, leaves the out-argument untouched (whatever it is), raises
no fault (the outcome is `some`, never the exception outcome `none`), and
changes nothing but the trace. -/
theorem c7_get_miss {V : Type} (st : DbState V) (cntxt : Option Component)
    (i f : String) (out : OutArg V)
    (hmiss : get_highest_precedence
        (lookup_regex_names st.pool (resolveInst (resolveCtx cntxt) i) f) =
      none) :
    (UVMConfigDb.get st cntxt i f out).1 = some (false, out) ∧
    obs (UVMConfigDb.get st cntxt i f out).2 = obs st := by
  constructor
  · simp only [UVMConfigDb.get, hmiss]
  · rw [get_state, addTrace_obs]

/-- Witness for C7 at a concrete input: a lookup on the empty database
misses and behaves as stated. -/
theorem c7_get_miss_witness :
    (UVMConfigDb.get (initState Nat none false) none "a" "f"
        (OutArg.lst [])).1 = some (false, OutArg.lst []) ∧
    obs (UVMConfigDb.get (initState Nat none false) none "a" "f"
        (OutArg.lst [])).2 = obs (initState Nat none false) :=
  c7_get_miss (initState Nat none false) none "a" "f" (OutArg.lst [])
    (by decide)

/-- C8: after `set(ctx, "my_comp", "field1", 123)` followed by
`set(ctx, "my_comp.*", "field1", 555)`, a `get(ctx, "my_comp", "field1")`
returns 123 and a `get(ctx, "my_comp.child", "field1")` returns 555: the
later wildcard write shadows the exact-path write only for lookups the
exact pattern does not match. -/
theorem c8_wildcard_shadowing :
    (UVMConfigDb.get
        (UVMConfigDb.set
          (UVMConfigDb.set (initState Nat none false) none "my_comp" "field1" 123)
          none "my_comp.*" "field1" 555)
        none "my_comp" "field1" (OutArg.lst [])).1 =
      some (true, OutArg.lst [123]) ∧
    (UVMConfigDb.get
        (UVMConfigDb.set
          (UVMConfigDb.set (initState Nat none false) none "my_comp" "field1" 123)
          none "my_comp.*" "field1" 555)
        none "my_comp.child" "field1" (OutArg.lst [])).1 =
      some (true, OutArg.lst [555]) :=
  ⟨by decide, by decide⟩

/-- C9: noninterference of the tracing toggle: from the same state with the
tracing flag set either way, `set` produces states identical in everything
but the trace records, and `get` returns the same outcome and delivered
value and likewise changes the two states identically outside the trace. -/
theorem c9_tracing_noninterference {V : Type} (st : DbState V)
    (b1 b2 : Bool) (cntxt : Option Component) (i f : String) (v : V)
    (out : OutArg V) :
    obs (UVMConfigDb.set { st with tracing := b1 } cntxt i f v) =
      obs (UVMConfigDb.set { st with tracing := b2 } cntxt i f v) ∧
    (UVMConfigDb.get { st with tracing := b1 } cntxt i f out).1 =
      (UVMConfigDb.get { st with tracing := b2 } cntxt i f out).1 ∧
    obs (UVMConfigDb.get { st with tracing := b1 } cntxt i f out).2 =
      obs (UVMConfigDb.get { st with tracing := b2 } cntxt i f out).2 := by
  refine ⟨?_, ?_, ?_⟩
  · have h1 := setPoolStep_obs_tracing st b1 cntxt i f v
    have h2 := setPoolStep_obs_tracing st b2 cntxt i f v
    have h12 := h1.trans h2.symm
    have hpool := congrArg (fun t => t.1) h12
    have hnext := congrArg (fun t => t.2.1) h12
    have hrsc := congrArg (fun t => t.2.2.1) h12
    simp only [obs] at hpool hnext hrsc
    unfold obs
    rw [set_pool, set_pool, set_nextRid, set_nextRid, set_m_rsc, set_m_rsc,
      set_m_waiters, set_m_waiters, set_phase, set_phase]
    rw [hpool, hnext, hrsc]
  · simp only [UVMConfigDb.get]
    split <;> rfl
  · rw [get_state, get_state, addTrace_obs, addTrace_obs]
    rfl

/-- C10: on a hit, a `get` whose out-argument does not support appending
raises (outcome `none`) instead of returning; on a miss the out-argument is
never inspected and `get` returns `false` for any out-argument. -/
theorem c10_get_out_argument {V : Type} (st : DbState V)
    (cntxt : Option Component) (i f : String) :
    (∀ e, get_highest_precedence
        (lookup_regex_names st.pool (resolveInst (resolveCtx cntxt) i) f) =
          some e →
      (UVMConfigDb.get st cntxt i f OutArg.nonAppendable).1 = none) ∧
    (get_highest_precedence
        (lookup_regex_names st.pool (resolveInst (resolveCtx cntxt) i) f) =
          none →
      ∀ out, (UVMConfigDb.get st cntxt i f out).1 = some (false, out)) := by
  constructor
  · intro e he
    simp only [UVMConfigDb.get, he]
  · intro hn out
    simp only [UVMConfigDb.get, hn]

/-- Witness for C10 at concrete inputs: a hit with a non-appendable
out-argument raises, and a miss returns `false` even for a non-appendable
out-argument. -/
theorem c10_get_out_argument_witness :
    (UVMConfigDb.get
        (UVMConfigDb.set (initState Nat none false) none "a" "f" 1)
        none "a" "f" OutArg.nonAppendable).1 = none ∧
    (UVMConfigDb.get (initState Nat none false) none "b" "g"
        OutArg.nonAppendable).1 = some (false, OutArg.nonAppendable) := by
  constructor
  · exact (c10_get_out_argument
        (UVMConfigDb.set (initState Nat none false) none "a" "f" 1)
        none "a" "f").1 (0, ⟨"f", "a", 1000, 1⟩) (by decide)
  · exact (c10_get_out_argument (initState Nat none false) none "b" "g").2
      (by decide) OutArg.nonAppendable

theorem wfRids_find {V : Type} {st : DbState V} (hwf : wfRids st = true)
    {cid : Nat} {k : String} {rid : Nat}
    (hk : findKey k (getBucket cid st.m_rsc) = some rid) :
    ∃ e, st.pool.find? (fun (x : Nat × Resource V) => x.1 == rid) = some e := by
  unfold getBucket at hk
  cases hb : st.m_rsc.find? (fun b => b.1 == cid) with
  | none =>
    rw [hb] at hk
    simp [findKey] at hk
  | some bkt =>
    rw [hb] at hk
    have hbm : bkt ∈ st.m_rsc := List.mem_of_find?_eq_some hb
    unfold findKey at hk
    cases hkv : bkt.2.find? (fun kv => kv.1 == k) with
    | none => rw [hkv] at hk; cases hk
    | some kv =>
      rw [hkv] at hk
      obtain rfl : kv.2 = rid := Option.some.inj hk
      have hkvm : kv ∈ bkt.2 := List.mem_of_find?_eq_some hkv
      have hall := hwf
      unfold wfRids at hall
      rw [List.all_eq_true] at hall
      have h1 := hall bkt hbm
      rw [List.all_eq_true] at h1
      have h2 := h1 kv hkvm
      rw [List.any_eq_true] at h2
      obtain ⟨e, he, hee⟩ := h2
      have hsome : (st.pool.find? (fun (x : Nat × Resource V) => x.1 == kv.2)).isSome := by
        rw [List.find?_isSome]
        exact ⟨e, he, hee⟩
      obtain ⟨e2, he2⟩ := Option.isSome_iff_exists.mp hsome
      exact ⟨e2, he2⟩

/-- C2: the entry written by `set` always ends at the front of the pool,
and its precedence is `default_precedence - depth(resolved context)` when
the current phase is named "build", and `default_precedence` otherwise;
the written value is stored with it. -/
theorem c2_write_precedence {V : Type} (st : DbState V)
    (cntxt : Option Component) (i f : String) (v : V)
    (hwf : wfRids st = true) :
    ∃ rid r, (UVMConfigDb.set st cntxt i f v).pool.head? = some (rid, r) ∧
      r.precedence =
        (if st.phase = some "build" then
          default_precedence - (resolveCtx cntxt).depth
        else default_precedence) ∧
      r.val = v := by
  rw [set_pool]
  simp only [setPoolStep]
  split
  · exact ⟨st.nextRid, _, rfl, rfl, rfl⟩
  · rename_i rid hk
    obtain ⟨e, he⟩ := wfRids_find hwf hk
    rw [he]
    exact ⟨rid, _, rfl, rfl, rfl⟩

/-- Witness for C2 at concrete inputs: a build-phase write from a depth-2
context gets precedence `default_precedence - 2`. -/
theorem c2_write_precedence_witness :
    ∃ rid r,
      (UVMConfigDb.set (initState Nat (some "build") false)
          (some ⟨3, "top.a.b", 2⟩) "c" "f" 5).pool.head? = some (rid, r) ∧
      r.precedence =
        (if (initState Nat (some "build") false).phase = some "build" then
          default_precedence - (resolveCtx (some ⟨3, "top.a.b", 2⟩)).depth
        else default_precedence) ∧
      r.val = 5 :=
  c2_write_precedence (initState Nat (some "build") false)
    (some ⟨3, "top.a.b", 2⟩) "c" "f" 5 (by decide)

theorem getBucket_setBucket (cid : Nat) (b : List (String × Nat))
    (m : List (Nat × List (String × Nat))) :
    getBucket cid (setBucket cid b m) = b := by
  induction m with
  | nil =>
    simp [setBucket, getBucket, List.find?_cons]
  | cons e es ih =>
    by_cases hc : e.1 = cid
    · simp only [setBucket, if_pos hc]
      simp [getBucket, List.find?_cons]
    · simp only [setBucket, if_neg hc]
      unfold getBucket
      have h2 : (e.1 == cid) = false := by simp [hc]
      rw [List.find?_cons]
      simp only [h2]
      exact ih

theorem findKey_none_not_mem {k : String} {b : List (String × Nat)}
    (h : findKey k b = none) : k ∉ b.map Prod.fst := by
  unfold findKey at h
  cases hf : b.find? (fun kv => kv.1 == k) with
  | some kv =>
    rw [hf] at h
    simp at h
  | none =>
    rw [List.find?_eq_none] at hf
    intro hk
    obtain ⟨kv, hkv, hkv1⟩ := List.mem_map.mp hk
    exact hf kv hkv (by simp [hkv1])

theorem bucketsNodup_getBucket {V : Type} {st : DbState V}
    (hnd : bucketsNodup st = true) (cid : Nat) :
    ((getBucket cid st.m_rsc).map Prod.fst).Nodup := by
  unfold getBucket
  cases hb : st.m_rsc.find? (fun b => b.1 == cid) with
  | none => simp
  | some bkt =>
    have hbm := List.mem_of_find?_eq_some hb
    unfold bucketsNodup at hnd
    rw [List.all_eq_true] at hnd
    have h2 := hnd bkt hbm
    simp only [decide_eq_true_eq] at h2
    exact h2

theorem all_setBucket (P : Nat × List (String × Nat) → Bool) (cid : Nat)
    (b : List (String × Nat)) (m : List (Nat × List (String × Nat)))
    (hm : m.all P = true) (hb : P (cid, b) = true) :
    (setBucket cid b m).all P = true := by
  induction m with
  | nil => simp [setBucket, hb]
  | cons e es ih =>
    rw [List.all_cons, Bool.and_eq_true] at hm
    by_cases hc : e.1 = cid
    · simp [setBucket, if_pos hc, hb, hm.2]
    · simp only [setBucket, if_neg hc]
      rw [List.all_cons, Bool.and_eq_true]
      exact ⟨hm.1, ih hm.2⟩

/-- C5: within one writer-context bucket at most one resource entry ever
exists per composed lookup key: a `set` whose key already exists in the
context's pool updates the existing entry in place (same identity, new
precedence and value, moved to the front) without touching `m_rsc`, so the
pool size is unchanged; a `set` with a fresh key registers exactly that key
at the end of the context's bucket and grows the pool by one; and
per-bucket key distinctness is preserved — so the pool's size is bounded by
the number of distinct keys ever written. -/
theorem c5_one_entry_per_key {V : Type} (st : DbState V)
    (cntxt : Option Component) (i f : String) (v : V)
    (hwf : wfRids st = true) (hnd : bucketsNodup st = true) :
    (∀ rid,
      findKey (lookupName (resolveInst (resolveCtx cntxt) i) f)
          (getBucket (resolveCtx cntxt).cid st.m_rsc) = some rid →
      (UVMConfigDb.set st cntxt i f v).m_rsc = st.m_rsc ∧
      (UVMConfigDb.set st cntxt i f v).pool.length = st.pool.length ∧
      ∃ e, st.pool.find? (fun (x : Nat × Resource V) => x.1 == rid) = some e ∧
        (UVMConfigDb.set st cntxt i f v).pool =
          (rid, { e.2 with
                    precedence := calcPrec st.phase (resolveCtx cntxt),
                    val := v }) :: removeRid rid st.pool) ∧
    (findKey (lookupName (resolveInst (resolveCtx cntxt) i) f)
          (getBucket (resolveCtx cntxt).cid st.m_rsc) = none →
      (getBucket (resolveCtx cntxt).cid
          (UVMConfigDb.set st cntxt i f v).m_rsc).map Prod.fst =
        (getBucket (resolveCtx cntxt).cid st.m_rsc).map Prod.fst ++
          [lookupName (resolveInst (resolveCtx cntxt) i) f] ∧
      (UVMConfigDb.set st cntxt i f v).pool.length = st.pool.length + 1) ∧
    bucketsNodup (UVMConfigDb.set st cntxt i f v) = true := by
  refine ⟨?_, ?_, ?_⟩
  · intro rid hk
    obtain ⟨e, he⟩ := wfRids_find hwf hk
    have hepool : (UVMConfigDb.set st cntxt i f v).pool =
        (rid, { e.2 with
                  precedence := calcPrec st.phase (resolveCtx cntxt),
                  val := v }) :: removeRid rid st.pool := by
      rw [set_pool]
      simp only [setPoolStep, hk, he]
    have hrsc : (UVMConfigDb.set st cntxt i f v).m_rsc = st.m_rsc := by
      rw [set_m_rsc]
      simp only [setPoolStep, hk, he]
    refine ⟨hrsc, ?_, e, he, hepool⟩
    rw [hepool]
    have hmem : ∃ x ∈ st.pool, x.1 = rid := by
      refine ⟨e, List.mem_of_find?_eq_some he, ?_⟩
      have h3 := List.find?_some he
      simpa using h3
    rw [List.length_cons, removeRid_length hmem]
  · intro hk
    have hrsc : (UVMConfigDb.set st cntxt i f v).m_rsc =
        setBucket (resolveCtx cntxt).cid
          (getBucket (resolveCtx cntxt).cid st.m_rsc ++
            [(lookupName (resolveInst (resolveCtx cntxt) i) f, st.nextRid)])
          st.m_rsc := by
      rw [set_m_rsc]
      simp only [setPoolStep, hk]
    constructor
    · rw [hrsc, getBucket_setBucket, List.map_append]
      rfl
    · rw [set_pool]
      simp only [setPoolStep, hk]
      rw [List.length_cons]
  · unfold bucketsNodup
    rw [set_m_rsc]
    simp only [setPoolStep]
    split
    · rename_i hk
      apply all_setBucket
      · exact hnd
      · simp only [decide_eq_true_eq]
        rw [List.map_append]
        apply List.Nodup.append
        · exact bucketsNodup_getBucket hnd _
        · simp
        · intro a ha hb2
          simp only [List.map_cons, List.map_nil, List.mem_singleton] at hb2
          subst hb2
          exact findKey_none_not_mem hk ha
    · split
      · exact hnd
      · exact hnd

/-! ### Helper lemmas: occurrence of a segment in a character list -/

theorem hasSeg_nil_pat (l : List Char) : hasSeg [] l = true := by
  cases l <;> simp [hasSeg, leadEq]

theorem leadEq_append (a t : List Char) : leadEq a (a ++ t) = true := by
  induction a with
  | nil => rfl
  | cons c cs ih => simp [leadEq, ih]

theorem hasSeg_of_parts (pat x y : List Char) :
    hasSeg pat (x ++ (pat ++ y)) = true := by
  induction x with
  | nil =>
    rw [List.nil_append]
    cases pat with
    | nil => simpa using hasSeg_nil_pat y
    | cons p ps =>
      rw [List.cons_append]
      simp only [hasSeg]
      rw [Bool.or_eq_true]
      left
      have hl := leadEq_append (p :: ps) y
      rw [List.cons_append] at hl
      exact hl
  | cons c cs ih =>
    rw [List.cons_append]
    simp only [hasSeg]
    rw [Bool.or_eq_true]
    right
    exact ih

theorem string_data_inj {a b : String} (h : a.data = b.data) : a = b := by
  cases a
  cases b
  exact congrArg String.mk h

theorem key_decomp_le (i i2 f f2 : List Char) (hle : i.length ≤ i2.length)
    (h : i ++ (sepL ++ f) = i2 ++ (sepL ++ f2))
    (hm : hasSeg markL i2 = false) : i = i2 ∧ f = f2 := by
  have hsl : sepL.length = 9 := rfl
  have htake : i = i2.take i.length := by
    have hc := congrArg (List.take i.length) h
    rw [List.take_left, List.take_append_of_le_length hle] at hc
    exact hc
  have hi2 : i2 = i ++ i2.drop i.length := by
    conv_lhs => rw [← List.take_append_drop i.length i2]
    rw [← htake]
  have h2 : sepL ++ f = i2.drop i.length ++ (sepL ++ f2) := by
    apply @List.append_cancel_left _ i
    rw [h]
    conv_lhs => rw [hi2]
    rw [List.append_assoc]
  cases ht0 : i2.drop i.length with
  | nil =>
    rw [ht0] at hi2 h2
    rw [List.nil_append] at h2
    exact ⟨by rw [hi2, List.append_nil], List.append_cancel_left h2⟩
  | cons c t2 =>
    exfalso
    rw [ht0] at hi2 h2
    by_cases hd9 : 9 ≤ (c :: t2).length
    · have h3 := congrArg (List.take 9) h2
      rw [List.take_left' hsl, List.take_append_of_le_length hd9] at h3
      have ht : c :: t2 = sepL ++ (c :: t2).drop 9 := by
        conv_lhs => rw [← List.take_append_drop 9 (c :: t2)]
        rw [← h3]
      have hseg : hasSeg markL i2 = true := by
        rw [hi2, ht]
        have hsep : sepL = ['_', '_'] ++ (markL ++ ['_', '_']) := rfl
        rw [hsep]
        have hpart := hasSeg_of_parts markL (i ++ ['_', '_'])
          (['_', '_'] ++ (c :: t2).drop 9)
        simpa [List.append_assoc] using hpart
      rw [hseg] at hm
      cases hm
    · have hd8 : (c :: t2).length ≤ 8 := by omega
      have hd1 : 1 ≤ (c :: t2).length := by simp
      have h3 := congrArg (List.take (c :: t2).length) h2
      rw [List.take_append_of_le_length (by omega), List.take_left] at h3
      have h4 := congrArg (List.drop (c :: t2).length) h2
      rw [List.drop_append_of_le_length (by omega), List.drop_left] at h4
      have h5 := congrArg (List.take (9 - (c :: t2).length)) h4
      rw [List.take_append_of_le_length (by simp [hsl]),
        List.take_of_length_le (by simp [hsl]),
        List.take_append_of_le_length (by omega)] at h5
      obtain ⟨d, hd⟩ : ∃ d, (c :: t2).length = d := ⟨_, rfl⟩
      rw [hd] at h3 h5 hd1 hd8
      interval_cases d
      · exact absurd h5 (by decide)
      · exact absurd h5 (by decide)
      · exact absurd h5 (by decide)
      · exact absurd h5 (by decide)
      · exact absurd h5 (by decide)
      · exact absurd h5 (by decide)
      · -- d = 7 : the tail of i2 is "__M_UVM" and contains the mark
        have hseg : hasSeg markL i2 = true := by
          rw [hi2, ← h3]
          have hsep7 : sepL.take 7 = ['_', '_'] ++ (markL ++ []) := rfl
          rw [hsep7]
          have hpart := hasSeg_of_parts markL (i ++ ['_', '_']) []
          simpa [List.append_assoc] using hpart
        rw [hseg] at hm
        cases hm
      · -- d = 8 : the tail of i2 is "__M_UVM_" and contains the mark
        have hseg : hasSeg markL i2 = true := by
          rw [hi2, ← h3]
          have hsep8 : sepL.take 8 = ['_', '_'] ++ (markL ++ ['_']) := rfl
          rw [hsep8]
          have hpart := hasSeg_of_parts markL (i ++ ['_', '_']) ['_']
          simpa [List.append_assoc] using hpart
        rw [hseg] at hm
        cases hm

/-- C4 counterexample: key composition with the separator token is NOT
injective on (instance, field) pairs: the separator `__M_UVM__` overlaps
itself, so the distinct pairs `("a__M_UVM", "b")` and `("a", "M_UVM__b")`
compose to the identical internal lookup key, and two `set` calls with
these distinct pairs from the same context collapse into a single pool
entry (the second finds the first's key and updates it in place). -/
theorem c4_counterexample :
    lookupName "a__M_UVM" "b" = lookupName "a" "M_UVM__b" ∧
    ¬("a__M_UVM" = "a" ∧ "b" = "M_UVM__b") ∧
    (UVMConfigDb.set
        (UVMConfigDb.set (initState Nat none false) none "a__M_UVM" "b" 7)
        none "a" "M_UVM__b" 8).pool.length = 1 :=
  ⟨by decide, by decide, by decide⟩

/-- C4 (amended): key composition with the separator token is injective on
(instance, field) pairs provided neither instance path contains the
substring `M_UVM` (the self-overlapping core of the reserved separator, as
a stand-in for the spec's "separator guaranteed absent from legal names");
and concretely a `set` to instance `"foo"` field `"barxyz"` is not visible
to a `get` on instance `"foobar"` field `"xyz"`. -/
theorem c4_amended_key_injective :
    (∀ i i2 f f2 : String,
      hasSeg markL i.data = false → hasSeg markL i2.data = false →
      lookupName i f = lookupName i2 f2 → i = i2 ∧ f = f2) ∧
    (UVMConfigDb.get
        (UVMConfigDb.set (initState Nat none false) none "foo" "barxyz" 7)
        none "foobar" "xyz" (OutArg.lst [])).1 = some (false, OutArg.lst []) := by
  constructor
  · intro i i2 f f2 hi hi2 h
    have hsep : ("__M_UVM__" : String).data = sepL := rfl
    have hd : i.data ++ (sepL ++ f.data) = i2.data ++ (sepL ++ f2.data) := by
      have hc := congrArg String.data h
      simp only [lookupName, String.data_append, hsep] at hc
      simpa [List.append_assoc] using hc
    rcases Nat.le_total i.data.length i2.data.length with hle | hle
    · obtain ⟨h1, h2⟩ := key_decomp_le i.data i2.data f.data f2.data hle hd hi2
      exact ⟨string_data_inj h1, string_data_inj h2⟩
    · obtain ⟨h1, h2⟩ := key_decomp_le i2.data i.data f2.data f.data hle hd.symm hi
      exact ⟨(string_data_inj h1).symm, (string_data_inj h2).symm⟩
  · decide

/-- Witness for the amended C4 at concrete inputs: for mark-free names an
equal composed key forces equal pairs. -/
theorem c4_amended_key_injective_witness : ("foo" : String) = "foo" ∧ ("bar" : String) = "bar" :=
  c4_amended_key_injective.1 "foo" "foo" "bar" "bar" (by decide) (by decide) rfl

/-- Witness for C5 at concrete inputs: a second write to the same
(instance, field) pair leaves the bucket untouched and the pool size
unchanged. -/
theorem c5_one_entry_per_key_witness :
    (UVMConfigDb.set
        (UVMConfigDb.set (initState Nat none false) none "a" "f" 1)
        none "a" "f" 2).m_rsc =
      (UVMConfigDb.set (initState Nat none false) none "a" "f" 1).m_rsc ∧
    (UVMConfigDb.set
        (UVMConfigDb.set (initState Nat none false) none "a" "f" 1)
        none "a" "f" 2).pool.length =
      (UVMConfigDb.set (initState Nat none false) none "a" "f" 1).pool.length :=
  ⟨((c5_one_entry_per_key
      (UVMConfigDb.set (initState Nat none false) none "a" "f" 1)
      none "a" "f" 2 (by decide) (by decide)).1 0 (by decide)).1,
   ((c5_one_entry_per_key
      (UVMConfigDb.set (initState Nat none false) none "a" "f" 1)
      none "a" "f" 2 (by decide) (by decide)).1 0 (by decide)).2.1⟩

/-! ### Helper lemmas: runtime write followed by benign operations -/

theorem filter_cons_true {α : Type} (p : α → Bool) (a : α) (l : List α)
    (h : p a = true) : (a :: l).filter p = a :: l.filter p :=
  List.filter_cons_of_pos h

theorem filter_cons_false {α : Type} (p : α → Bool) (a : α) (l : List α)
    (h : p a = false) : (a :: l).filter p = l.filter p := by
  have h2 : ¬ (p a = true) := by rw [h]; exact Bool.false_ne_true
  exact List.filter_cons_of_neg h2

theorem precBounded_mem {V : Type} {st : DbState V}
    (h : precBounded st = true) :
    ∀ e ∈ st.pool, e.2.precedence ≤ default_precedence := by
  intro e he
  unfold precBounded at h
  rw [List.all_eq_true] at h
  have h2 := h e he
  simpa using h2

theorem calcPrec_le (ph : Option String) (c : Component) :
    calcPrec ph c ≤ default_precedence := by
  unfold calcPrec
  split
  · omega
  · omega

theorem calcPrec_runtime {ph : Option String} (h : ¬ ph = some "build")
    (c : Component) : calcPrec ph c = default_precedence := by
  unfold calcPrec
  rw [if_neg h]

theorem keyFits_found {V : Type} {st : DbState V} {cntxt : Option Component}
    {i f : String} {rid : Nat}
    (hfit : keyFits st cntxt i f = true)
    (hk : findKey (lookupName (resolveInst (resolveCtx cntxt) i) f)
        (getBucket (resolveCtx cntxt).cid st.m_rsc) = some rid) :
    ∃ e, st.pool.find? (fun (x : Nat × Resource V) => x.1 == rid) = some e ∧
      e.2.scope = resolveInst (resolveCtx cntxt) i ∧ e.2.name = f := by
  simp only [keyFits, hk] at hfit
  cases hf : st.pool.find? (fun (x : Nat × Resource V) => x.1 == rid) with
  | none => simp only [hf] at hfit; cases hfit
  | some e =>
    simp only [hf, Bool.and_eq_true, beq_iff_eq] at hfit
    exact ⟨e, rfl, hfit.1, hfit.2⟩

theorem stableInv_set {V : Type} (st : DbState V) (cntxt : Option Component)
    (i f : String) (v : V) (hpb : precBounded st = true)
    (hphase : ¬ st.phase = some "build") (hfit : keyFits st cntxt i f = true) :
    StableInv (resolveInst (resolveCtx cntxt) i) f v
      (UVMConfigDb.set st cntxt i f v) := by
  have hprec : calcPrec st.phase (resolveCtx cntxt) = default_precedence :=
    calcPrec_runtime hphase _
  constructor
  · unfold precBounded
    rw [set_pool]
    simp only [setPoolStep]
    split
    · rw [List.all_cons, Bool.and_eq_true]
      constructor
      · simp [hprec]
      · exact hpb
    · rename_i rid hk
      obtain ⟨e, hf, hsc, hnm⟩ := keyFits_found hfit hk
      simp only [hf]
      rw [List.all_cons, Bool.and_eq_true]
      constructor
      · simp [hprec]
      · rw [List.all_eq_true]
        intro x hx
        simpa using precBounded_mem hpb x (mem_of_removeRid hx)
  · unfold headVal
    rw [set_pool]
    simp only [setPoolStep]
    split
    · refine ⟨st.nextRid,
        ⟨f, resolveInst (resolveCtx cntxt) i,
          calcPrec st.phase (resolveCtx cntxt), v⟩,
        lookup_regex_names st.pool (resolveInst (resolveCtx cntxt) i) f,
        ?_, by simpa using hprec, rfl⟩
      unfold lookup_regex_names
      apply filter_cons_true
      simp [visMatch, globMatch_self]
    · rename_i rid hk
      obtain ⟨e, hf, hsc, hnm⟩ := keyFits_found hfit hk
      simp only [hf]
      refine ⟨rid,
        { e.2 with precedence := calcPrec st.phase (resolveCtx cntxt), val := v },
        lookup_regex_names (removeRid rid st.pool)
          (resolveInst (resolveCtx cntxt) i) f,
        ?_, by simpa using hprec, rfl⟩
      unfold lookup_regex_names
      apply filter_cons_true
      simp [visMatch, hsc, hnm, globMatch_self]

theorem stableInv_benign_step {V : Type} {inst f : String} {v : V}
    {st : DbState V} {op : DbOp V}
    (hinv : StableInv inst f v st)
    (hb : benignFor inst f st op = true) :
    StableInv inst f v (applyOp st op) := by
  obtain ⟨hpb, rid, r, rest, hfil, hprec, hval⟩ := hinv
  cases op with
  | opGet c2 i2 f2 =>
    constructor
    · show precBounded ((UVMConfigDb.get st c2 i2 f2 (OutArg.lst [])).2) = true
      unfold precBounded
      rw [get_state, addTrace_pool]
      exact hpb
    · show headVal inst f v ((UVMConfigDb.get st c2 i2 f2 (OutArg.lst [])).2)
      unfold headVal
      rw [get_state, addTrace_pool]
      exact ⟨rid, r, rest, hfil, hprec, hval⟩
  | opExists c2 i2 f2 => exact ⟨hpb, rid, r, rest, hfil, hprec, hval⟩
  | opPhase p => exact ⟨hpb, rid, r, rest, hfil, hprec, hval⟩
  | opSet c2 i2 f2 v2 =>
    simp only [benignFor, Bool.and_eq_true] at hb
    obtain ⟨hbpat, hbent⟩ := hb
    have hbpat2 : (globMatch (resolveInst (resolveCtx c2) i2) inst &&
        globMatch f2 f) = false := by
      cases hgb : (globMatch (resolveInst (resolveCtx c2) i2) inst &&
          globMatch f2 f)
      · rfl
      · rw [hgb] at hbpat
        exact absurd hbpat (by decide)
    show StableInv inst f v (UVMConfigDb.set st c2 i2 f2 v2)
    constructor
    · unfold precBounded
      rw [set_pool]
      simp only [setPoolStep]
      split
      · rw [List.all_cons, Bool.and_eq_true]
        constructor
        · simpa using calcPrec_le st.phase (resolveCtx c2)
        · exact hpb
      · rename_i rid2 hk2
        cases hf2 : st.pool.find? (fun (x : Nat × Resource V) => x.1 == rid2) with
        | none =>
          simp only [hf2]
          exact hpb
        | some e2 =>
          simp only [hf2]
          rw [List.all_cons, Bool.and_eq_true]
          constructor
          · simpa using calcPrec_le st.phase (resolveCtx c2)
          · rw [List.all_eq_true]
            intro x hx
            simpa using precBounded_mem hpb x (mem_of_removeRid hx)
    · unfold headVal
      rw [set_pool]
      simp only [setPoolStep]
      split
      · rename_i hk2
        refine ⟨rid, r, rest, ?_, hprec, hval⟩
        have hvm : visMatch inst f
            (st.nextRid,
              ({ name := f2, scope := resolveInst (resolveCtx c2) i2,
                 precedence := calcPrec st.phase (resolveCtx c2),
                 val := v2 } : Resource V)) = false := by
          simp only [visMatch]
          exact hbpat2
        unfold lookup_regex_names at hfil ⊢
        rw [filter_cons_false _ _ _ hvm]
        exact hfil
      · rename_i rid2 hk2
        cases hf2 : st.pool.find? (fun (x : Nat × Resource V) => x.1 == rid2) with
        | none =>
          simp only [hf2]
          exact ⟨rid, r, rest, hfil, hprec, hval⟩
        | some e2 =>
          simp only [hf2]
          simp only [hk2, hf2] at hbent
          have hnm2 : visMatch inst f e2 = false := by simpa using hbent
          refine ⟨rid, r, rest, ?_, hprec, hval⟩
          have hvm : visMatch inst f
              (rid2, { e2.2 with
                         precedence := calcPrec st.phase (resolveCtx c2),
                         val := v2 }) = false := by
            simp only [visMatch] at hnm2 ⊢
            exact hnm2
          unfold lookup_regex_names at hfil ⊢
          rw [filter_cons_false _ _ _ hvm,
            filter_removeRid _ rid2 st.pool e2 hf2 hnm2]
          exact hfil

theorem stableInv_ops {V : Type} {inst f : String} {v : V} :
    ∀ (ops : List (DbOp V)) (st : DbState V),
      StableInv inst f v st → BenignSeq inst f st ops →
      StableInv inst f v (applyOps ops st) := by
  intro ops
  induction ops with
  | nil => intro st h _; exact h
  | cons op rest ih =>
    intro st h hb
    obtain ⟨hb1, hb2⟩ := hb
    exact ih (applyOp st op) (stableInv_benign_step h hb1) hb2

theorem get_of_stableInv {V : Type} {v : V} {st : DbState V}
    (cntxt : Option Component) (i f : String)
    (h : StableInv (resolveInst (resolveCtx cntxt) i) f v st) (l : List V) :
    (UVMConfigDb.get st cntxt i f (OutArg.lst l)).1 =
      some (true, OutArg.lst (l ++ [v])) := by
  obtain ⟨hpb, rid, r, rest, hfil, hprec, hval⟩ := h
  have hbound : ∀ y ∈ rest, y.2.precedence ≤ r.precedence := by
    intro y hy
    have hy2 : y ∈ lookup_regex_names st.pool
        (resolveInst (resolveCtx cntxt) i) f := by
      rw [hfil]
      exact List.mem_cons_of_mem _ hy
    have hy3 : y ∈ st.pool := List.mem_of_mem_filter hy2
    rw [hprec]
    exact precBounded_mem hpb y hy3
  have hghp : get_highest_precedence (lookup_regex_names st.pool
      (resolveInst (resolveCtx cntxt) i) f) = some (rid, r) := by
    rw [hfil]
    exact ghp_head (rid, r) rest hbound
  simp only [UVMConfigDb.get, hghp, hval]

/-- C1 counterexample: the claim as stated fails during the build phase.
The root (depth 0) first writes `("top.c", "f") := 1`; then the component
at `"top.c"` (depth 2) performs `set` of its own `("", "f") := 2`
immediately followed by `get` with the identical (ctx, i, f) and no
intervening write — yet `get` returns the earlier value 1, not 2, because
the shallower build-phase writer carries strictly higher precedence. -/
theorem c1_counterexample :
    (UVMConfigDb.get
        (UVMConfigDb.set
          (UVMConfigDb.set (initState Nat (some "build") false)
            (some rootComp) "top.c" "f" 1)
          (some ⟨1, "top.c", 2⟩) "" "f" 2)
        (some ⟨1, "top.c", 2⟩) "" "f" (OutArg.lst [])).1 =
      some (true, OutArg.lst [1]) ∧ (1 : Nat) ≠ 2 :=
  ⟨by decide, by decide⟩

/-- C1 (amended): a `set(ctx, i, f, v)` made outside the build phase, whose
composed key was not previously created through an aliasing (instance,
field) pair, followed — after any further operations none of which touches
a pool entry matching the `(resolved instance, f)` lookup — by a
`get(ctx, i, f)` with the identical `(ctx, i, f)`, returns true and
delivers exactly `v`; the prior state is arbitrary as long as its stored
precedences do not exceed the default (an invariant of every reachable
state). -/
theorem c1_amended_set_then_get {V : Type} (st : DbState V)
    (cntxt : Option Component) (i f : String) (v : V) (ops : List (DbOp V))
    (l : List V)
    (hpb : precBounded st = true)
    (hphase : ¬ st.phase = some "build")
    (hfit : keyFits st cntxt i f = true)
    (hben : BenignSeq (resolveInst (resolveCtx cntxt) i) f
      (UVMConfigDb.set st cntxt i f v) ops) :
    (UVMConfigDb.get (applyOps ops (UVMConfigDb.set st cntxt i f v))
        cntxt i f (OutArg.lst l)).1 = some (true, OutArg.lst (l ++ [v])) :=
  get_of_stableInv cntxt i f
    (stableInv_ops ops (UVMConfigDb.set st cntxt i f v)
      (stableInv_set st cntxt i f v hpb hphase hfit) hben) l

/-- Witness for the amended C1 at concrete inputs: a runtime write read
back through an intervening unrelated write delivers the stored value. -/
theorem c1_amended_set_then_get_witness :
    (UVMConfigDb.get
        (applyOps [DbOp.opSet none "zz" "g" 7]
          (UVMConfigDb.set (initState Nat none false) none "my_comp" "f" 42))
        none "my_comp" "f" (OutArg.lst [])).1 =
      some (true, OutArg.lst [42]) :=
  c1_amended_set_then_get (initState Nat none false) none "my_comp" "f" 42
    [DbOp.opSet none "zz" "g" 7] [] (by decide) (by decide) (by decide)
    ⟨by decide, trivial⟩
